import Mathlib

/-!
Verification of the RMB job-market pipeline: title classification
(`classifier.py`), posting processing (`job_processor.py`), brief
aggregation (`generate_brief.py`) and ATS platform detection
(`migrate_csv_data.py`), shallowly embedded in Lean.

Python strings are modelled as Lean `String`; `needle in haystack`
is substring containment (`pyIn`), `str.lower()` is `pyLower`,
`str.strip()` is `pyStrip`, `str.split(",")` is `splitComma`.
-/

namespace RMB

/-- Python `a.startswith(b)`-style check on char lists: `beginsWith n h`
is true when `n` is an initial segment of `h`. -/
def beginsWith : List Char → List Char → Bool
  | [], _ => true
  | _ :: _, [] => false
  | a :: as, b :: bs => a = b && beginsWith as bs

/-- Substring containment on char lists: Python `needle in hay`. -/
def containsB (needle : List Char) : List Char → Bool
  | [] => needle.isEmpty
  | c :: t => beginsWith needle (c :: t) || containsB needle t

/-- Python `str.lower()` (ASCII model). -/
def pyLower (s : String) : String := String.mk (s.data.map Char.toLower)

/-- Python `needle in hay` for strings. -/
def pyIn (needle hay : String) : Bool := containsB needle.data hay.data

/- Keyword lists of `classify_job_function` (classifier.py), in source order. -/

def operationsKws : List String :=
  ["operations", "supply chain", "logistics", "program manager", "process", " ops"]

def financeKws : List String :=
  ["finance", "accounting", "treasury", "fp&a", "controller", "audit"]

def gtmKws : List String :=
  ["sales", "revenue", "gtm", "growth", "business development", "account exec",
   "partnerships", "customer success"]

def productKws : List String := ["product", "pm", "product manager"]

def peopleKws : List String := ["people", "hr", "human resources", "talent", "recruiting"]

def engineeringKws : List String :=
  ["engineer", "software", "technical", "infrastructure", "developer", "devops"]

def marketingKws : List String := ["marketing", "brand", "communications", "content"]

/-- `classify_job_function` from `backend/src/processors/classifier.py`:
lower-case the title, then test the seven keyword sets in source order;
the first set with a contained keyword names the function, else `None`. -/
def classify_job_function (title : String) : Option String :=
  let normalized := pyLower title
  if operationsKws.any (fun kw => pyIn kw normalized) then some "operations"
  else if financeKws.any (fun kw => pyIn kw normalized) then some "finance"
  else if gtmKws.any (fun kw => pyIn kw normalized) then some "gtm"
  else if productKws.any (fun kw => pyIn kw normalized) then some "product"
  else if peopleKws.any (fun kw => pyIn kw normalized) then some "people"
  else if engineeringKws.any (fun kw => pyIn kw normalized) then some "engineering"
  else if marketingKws.any (fun kw => pyIn kw normalized) then some "marketing"
  else none

/- Keyword lists of `classify_job_level`, in source order (most senior first). -/

def cLevelKws : List String :=
  ["chief", "ceo", "cfo", "coo", "cto", "cmo", "c-level", "c suite"]

def svpKws : List String := ["senior vice president", "svp", "sr vp"]

def vpKws : List String := ["vice president", "vp", "v.p."]

def directorKws : List String := ["director", "dir.", "head of"]

/-- `classify_job_level` from `classifier.py`: ordered checks
c-level, svp, vp, director; first hit wins, else `None`. -/
def classify_job_level (title : String) : Option String :=
  let normalized := pyLower title
  if cLevelKws.any (fun kw => pyIn kw normalized) then some "c-level"
  else if svpKws.any (fun kw => pyIn kw normalized) then some "svp"
  else if vpKws.any (fun kw => pyIn kw normalized) then some "vp"
  else if directorKws.any (fun kw => pyIn kw normalized) then some "director"
  else none

/-- The level keyword tiers, indexed in priority order. -/
def tierKws : Fin 4 → List String
  | ⟨0, _⟩ => cLevelKws
  | ⟨1, _⟩ => svpKws
  | ⟨2, _⟩ => vpKws
  | ⟨3, _⟩ => directorKws

/-- The level name returned for each tier. -/
def tierName : Fin 4 → String
  | ⟨0, _⟩ => "c-level"
  | ⟨1, _⟩ => "svp"
  | ⟨2, _⟩ => "vp"
  | ⟨3, _⟩ => "director"

/-- Tier `i` has a keyword contained in the lower-cased title. -/
def tierHit (i : Fin 4) (title : String) : Prop :=
  (tierKws i).any (fun kw => pyIn kw (pyLower title)) = true

instance (i : Fin 4) (title : String) : Decidable (tierHit i title) := by
  unfold tierHit; infer_instance

/-- All keyword/function pairs of `classify_job_function`, in check order. -/
def functionPairs : List (String × String) :=
  operationsKws.map (fun k => (k, "operations"))
    ++ financeKws.map (fun k => (k, "finance"))
    ++ gtmKws.map (fun k => (k, "gtm"))
    ++ productKws.map (fun k => (k, "product"))
    ++ peopleKws.map (fun k => (k, "people"))
    ++ engineeringKws.map (fun k => (k, "engineering"))
    ++ marketingKws.map (fun k => (k, "marketing"))

/-- Python `str.isspace()` characters (ASCII model). -/
def pyIsSpace (c : Char) : Bool :=
  c = ' ' || c = '\t' || c = '\n' || c = '\r' || c = '\x0b' || c = '\x0c'

/-- Python `str.strip()`: drop leading and trailing whitespace. -/
def pyStrip (s : List Char) : List Char :=
  ((s.dropWhile pyIsSpace).reverse.dropWhile pyIsSpace).reverse

/-- Python `str.split(",")`: `[""]` on the empty string, separators not
kept, empty fields kept. -/
def splitComma : List Char → List (List Char)
  | [] => [[]]
  | c :: rest =>
    if c = ',' then [] :: splitComma rest
    else
      match splitComma rest with
      | [] => [[c]]
      | p :: ps => (c :: p) :: ps

/-- A raw job posting dictionary, as consumed by `process_job_posting`
(`job_processor.py`); a `none` field models an absent dictionary key. -/
structure RawJob where
  source_job_id : Option String := none
  company_id : Option String := none
  title : Option String := none
  url : Option String := none
  first_seen : Option String := none
  location_raw : Option String := none
  is_remote : Option Bool := none
  source_url : Option String := none
  scraped_at : Option String := none

/-- The processed posting produced by `process_job_posting`. -/
structure ProcessedJob where
  source_job_id : String
  company_id : String
  title : String
  url : String
  first_seen : String
  function : Option String
  level : Option String
  location_city : Option String
  location_state : Option String
  is_remote : Bool
  source_url : String
  scraped_at : String

/-- `process_job_posting` from `job_processor.py`. `now` stands for
`datetime.utcnow().isoformat()`, the default used for `first_seen` and
`scraped_at` when absent. -/
def process_job_posting (now : String) (job : RawJob) : ProcessedJob :=
  let title := job.title.getD ""
  let function := classify_job_function title
  let level := classify_job_level title
  let location_raw := job.location_raw.getD ""
  let parts := splitComma location_raw.data
  let loc : Option String × Option String :=
    if location_raw ≠ "" then
      if 2 ≤ parts.length then
        (some (String.mk (pyStrip (parts.headD []))),
         some (String.mk ((pyStrip (parts.getLastD [])).take 2)))
      else if parts.length = 1 then
        (some (String.mk (pyStrip (parts.headD []))), none)
      else (none, none)
    else (none, none)
  { source_job_id := job.source_job_id.getD ""
    company_id := job.company_id.getD ""
    title := title
    url := job.url.getD ""
    first_seen := job.first_seen.getD now
    function := function
    level := level
    location_city := loc.1
    location_state := loc.2
    is_remote := job.is_remote.getD false
    source_url := job.source_url.getD ""
    scraped_at := job.scraped_at.getD now }

/- ------- generate_brief.py ------- -/

/-- Target sets and staleness threshold from `generate_brief.py`
(Python sets, modelled as lists used only through membership). -/
def TARGET_FUNCTIONS : List String := ["gtm", "product", "operations", "finance"]

def TARGET_LEVELS : List String := ["manager", "director", "vp", "svp", "c-level"]

def STALE_DAYS : Int := 45

/-- The `Job` dataclass of `generate_brief.py`; `first_seen` is a UTC
timestamp in seconds; scores default to zero as in the dataclass. -/
structure Job where
  company_id : String
  title : String
  function : Option String
  level : Option String
  first_seen : Int
  strategy_score : Nat := 0
  execution_score : Nat := 0
  cross_functional_score : Nat := 0
  leadership_score : Nat := 0
  people_mgmt_flag : Bool := false

/-- Python `x in target_set` where `x` is an optional string:
`None` is never a member. -/
def inTarget (x : Option String) (s : List String) : Bool :=
  match x with
  | none => false
  | some v => s.contains v

/-- `filter_target_jobs` from `generate_brief.py`: keep jobs whose
function and level are both in the target sets. -/
def filter_target_jobs (jobs : List Job) : List Job :=
  jobs.filter fun j => inTarget j.function TARGET_FUNCTIONS && inTarget j.level TARGET_LEVELS

/-- Python `timedelta.days`: floor of the delta, in seconds, over 86400. -/
def timedeltaDays (delta : Int) : Int := Int.fdiv delta 86400

/-- The staleness test of `compute_staleness`: `age_days >= STALE_DAYS`. -/
def isStale (now : Int) (j : Job) : Bool :=
  STALE_DAYS ≤ timedeltaDays (now - j.first_seen)

/-- `stats[f][bucket] += 1` on a defaultdict keyed by function: the first
touch of a key inserts `{"stale": 0, "fresh": 0}` before incrementing.
Entries are `(function, stale count, fresh count)`. -/
def bumpStats : List (String × Nat × Nat) → String → Bool → List (String × Nat × Nat)
  | [], f, b => [(f, (if b then 1 else 0), (if b then 0 else 1))]
  | (g, s, fr) :: rest, f, b =>
    if g = f then (g, (if b then s + 1 else s), (if b then fr else fr + 1)) :: rest
    else (g, s, fr) :: bumpStats rest f b

/-- One loop iteration of `compute_staleness`: `if not j.function:
continue` skips jobs with a falsy function — `None` or the empty string,
Python truthiness — and every other job is bucketed as stale or fresh. -/
def stalenessStep (now : Int) (stats : List (String × Nat × Nat)) (j : Job) :
    List (String × Nat × Nat) :=
  match j.function with
  | none => stats
  | some f => if f = "" then stats else bumpStats stats f (isStale now j)

/-- `compute_staleness` from `generate_brief.py`. -/
def compute_staleness (now : Int) (jobs : List Job) : List (String × Nat × Nat) :=
  jobs.foldl (stalenessStep now) []

/-- Bucket pair for a function; `(0, 0)` when the key is absent. -/
def lookupStats (stats : List (String × Nat × Nat)) (f : String) : Nat × Nat :=
  match stats.find? (fun p => p.1 = f) with
  | some p => p.2
  | none => (0, 0)

/-- `Counter[(function, level)] += 1`. -/
def bumpCount : List ((String × String) × Nat) → (String × String) →
    List ((String × String) × Nat)
  | [], k => [(k, 1)]
  | (k0, c) :: rest, k =>
    if k0 = k then (k0, c + 1) :: rest else (k0, c) :: bumpCount rest k

/-- One loop iteration of `compute_volume`: `if j.function and j.level:`
counts only jobs whose function and level are both truthy — neither
`None` nor the empty string, Python truthiness. -/
def volumeStep (counter : List ((String × String) × Nat)) (j : Job) :
    List ((String × String) × Nat) :=
  match j.function, j.level with
  | some f, some l => if f = "" || l = "" then counter else bumpCount counter (f, l)
  | _, _ => counter

/-- `compute_volume` from `generate_brief.py`: the resulting mapping
(function, level) -> count, as the association list the Counter builds. -/
def compute_volume (jobs : List Job) : List ((String × String) × Nat) :=
  jobs.foldl volumeStep []

/-- Mapping access: `none` when the combination is absent. -/
def lookupCount (m : List ((String × String) × Nat)) (k : String × String) : Option Nat :=
  (m.find? fun p => p.1 = k).map fun p => p.2

/-- `_clean_title` from `generate_brief.py`: keep alphanumeric and
whitespace characters, replace every other character with a space, then
lower-case; empty titles stay empty. -/
def cleanTitle (title : String) : String :=
  if title = "" then ""
  else String.mk ((title.data.map fun ch =>
    if ch.isAlphanum || pyIsSpace ch then ch else ' ').map Char.toLower)

/- Keyword sets of `enrich_scope_features`, in source order. -/

def strategyTerms : List String :=
  ["strategy", "strategic", "roadmap", "portfolio", "transformation", "vision"]

def executionTerms : List String :=
  ["execute", "execution", "deliver", "delivery", "own", "owning", "pipeline",
   "quota", "okrs"]

def crossFuncTerms : List String :=
  ["cross functional", "cross-functional", "partner", "partnership",
   "collaborate", "collaboration"]

def leadershipTerms : List String :=
  ["lead", "leader", "leadership", "head of", "director", "vp", "svp", "chief"]

def peopleMgmtTerms : List String :=
  ["manage team", "managing team", "people manager", "people leadership",
   "build a team", "grow a team"]

/-- `score(terms)` inside `enrich_scope_features`: the number of distinct
terms of the set contained in the cleaned title. -/
def termScore (terms : List String) (t : String) : Nat :=
  terms.countP fun term => pyIn term t

/-- The per-job body of `enrich_scope_features`: jobs whose cleaned title
is empty are skipped (scores left as they are). -/
def enrichJob (j : Job) : Job :=
  let t := cleanTitle j.title
  if t = "" then j
  else
    { j with
      strategy_score := termScore strategyTerms t
      execution_score := termScore executionTerms t
      cross_functional_score := termScore crossFuncTerms t
      leadership_score := termScore leadershipTerms t
      people_mgmt_flag := peopleMgmtTerms.any fun term => pyIn term t }

/-- `enrich_scope_features` from `generate_brief.py` (in-place mutation
modelled as a map). -/
def enrich_scope_features (jobs : List Job) : List Job := jobs.map enrichJob

/-- `scope_score` from `render_brief`: sum of the four sub-scores plus 1
when the people-management flag is set. -/
def scope_score (j : Job) : Nat :=
  j.strategy_score + j.execution_score + j.cross_functional_score +
    j.leadership_score + (if j.people_mgmt_flag then 1 else 0)

/-- Lexicographic comparison of char lists by code point, Python string
order. -/
def charListLe : List Char → List Char → Bool
  | [], _ => true
  | _ :: _, [] => false
  | a :: as, b :: bs => if a = b then charListLe as bs else decide (a < b)

/-- Python string `<=`. -/
def strLe (a b : String) : Bool := charListLe a.data b.data

/-- The sort key `(-score, title)` of `render_brief`, as an order:
`a` comes no later than `b` when its score is larger, or scores tie and
its title is no later. -/
def rankLE (a b : Job × Nat) : Bool :=
  decide (b.2 < a.2) || (decide (a.2 = b.2) && strLe a.1.title b.1.title)

/-- Sorted insertion for `rankLE`. -/
def insertRank (x : Job × Nat) : List (Job × Nat) → List (Job × Nat)
  | [] => [x]
  | y :: ys => if rankLE x y then x :: y :: ys else y :: insertRank x ys

/-- Sorting by `rankLE` (Python `list.sort(key=lambda pair: (-score, title))`). -/
def sortRank : List (Job × Nat) → List (Job × Nat)
  | [] => []
  | x :: xs => insertRank x (sortRank xs)

/-- The "high scope roles" ranking built in `render_brief`: score every
job, keep strictly positive scores, sort by descending score with ties
broken by ascending title. -/
def highScopeRanking (jobs : List Job) : List (Job × Nat) :=
  sortRank ((jobs.map fun j => (j, scope_score j)).filter fun p => 0 < p.2)

/-- The order `rankLE` as a relation. -/
def rankRel (a b : Job × Nat) : Prop := rankLE a b = true

/-- Normalization as the spec words it: every non-alphanumeric character
(whitespace included) replaced by a space, then lower-cased. Written to
be compared against `cleanTitle`, which keeps whitespace characters
unchanged. -/
def cleanTitleSpec (title : String) : String :=
  String.mk ((title.data.map fun ch => if ch.isAlphanum then ch else ' ').map Char.toLower)

/-- The scope score as the spec words it: the five sub-scores computed
over `cleanTitleSpec` of the title. -/
def scope_score_spec (title : String) : Nat :=
  let t := cleanTitleSpec title
  termScore strategyTerms t + termScore executionTerms t +
    termScore crossFuncTerms t + termScore leadershipTerms t +
    (if peopleMgmtTerms.any (fun term => pyIn term t) then 1 else 0)

/- ------- migrate_csv_data.py ------- -/

/-- `detect_ats_platform` from `migrate_csv_data.py`: ordered substring
checks on the lower-cased careers URL; `None` or empty gives unknown. -/
def detect_ats_platform (careers_url : Option String) : String :=
  match careers_url with
  | none => "unknown"
  | some u =>
    if u = "" then "unknown"
    else
      let url_lower := pyLower u
      if pyIn "ashbyhq.com" url_lower || pyIn "ashby" url_lower then "ashby"
      else if pyIn "greenhouse.io" url_lower || pyIn "boards.greenhouse.io" url_lower then
        "greenhouse"
      else if pyIn "lever.co" url_lower || pyIn "jobs.lever.co" url_lower then "lever"
      else if pyIn "workday" url_lower || pyIn "myworkdayjobs.com" url_lower then "workday"
      else "unknown"

/- Sample jobs used by the witnesses. -/

def jobA : Job :=
  { company_id := "a", title := "VP Sales", function := some "gtm",
    level := some "vp", first_seen := 0 }

def jobB : Job :=
  { company_id := "b", title := "Chief of Staff", function := some "finance",
    level := some "c-level", first_seen := 0 }

def jobNoFn : Job :=
  { company_id := "c", title := "Curious Role", function := none,
    level := some "vp", first_seen := 0 }

/-- A job whose function is the empty string (non-None but falsy in
Python) and whose age is 46 days at `now = 0`. -/
def jobEmptyFn : Job :=
  { company_id := "", title := "", function := some "", level := some "vp",
    first_seen := -(46 * 86400) }

/-- A job whose title holds a tab character between "head" and "of". -/
def jobTabTitle : Job :=
  { company_id := "", title := "head\tof", function := none,
    level := none, first_seen := 0 }

/-- A job first seen exactly `STALE_DAYS` = 45 days before `now`. -/
def jobAtBoundary (now : Int) : Job :=
  { company_id := "", title := "", function := some "gtm", level := none,
    first_seen := now - 45 * 86400 }

/-- A job first seen one day less than `STALE_DAYS` before `now`. -/
def jobBelowBoundary (now : Int) : Job :=
  { company_id := "", title := "", function := some "gtm", level := none,
    first_seen := now - 44 * 86400 }

lemma any_pyIn_eq_false_of_unique (S : List String) (fS : String) (n k f : String)
    (hS : ∀ kw ∈ S, (kw, fS) ∈ functionPairs) (hne : fS ≠ f)
    (huniq : ∀ p ∈ functionPairs, pyIn p.1 n = true → p = (k, f)) :
    (S.any fun kw => pyIn kw n) = false := by
  rw [Bool.eq_false_iff]
  intro hany
  rcases List.any_eq_true.mp hany with ⟨kw, hkw, hin⟩
  have := huniq (kw, fS) (hS kw hkw) hin
  exact hne (by simpa using congrArg Prod.snd this)

lemma any_pyIn_eq_true_of_mem (S : List String) (n k : String)
    (hk : k ∈ S) (hin : pyIn k n = true) :
    (S.any fun kw => pyIn kw n) = true :=
  List.any_eq_true.mpr ⟨k, hk, hin⟩

lemma any_pyIn_eq_false_of_none (S : List String) (fS : String) (n : String)
    (hS : ∀ kw ∈ S, (kw, fS) ∈ functionPairs)
    (hnone : ∀ p ∈ functionPairs, pyIn p.1 n = false) :
    (S.any fun kw => pyIn kw n) = false := by
  rw [Bool.eq_false_iff]
  intro hany
  rcases List.any_eq_true.mp hany with ⟨kw, hkw, hc⟩
  rw [hnone (kw, fS) (hS kw hkw)] at hc
  exact Bool.false_ne_true hc

/-- C1: when the lower-cased title hits keywords of more than one level
tier (tiers `i < j` both hit, `i` the earliest hit tier), the result is
the tier whose check comes first in the fixed order c-level, svp, vp,
director; and on the empty title both classifiers return `None`. -/
theorem classify_level_priority_order (t : String) (i j : Fin 4) (hij : i < j)
    (hi : tierHit i t) (hj : tierHit j t)
    (hfirst : ∀ k, k < i → ¬ tierHit k t) :
    classify_job_level t = some (tierName i) ∧
    classify_job_function "" = none ∧ classify_job_level "" = none := by
  refine ⟨?_, by decide, by decide⟩
  obtain ⟨iv, hb⟩ := i
  interval_cases iv
  · simp only [tierHit, tierKws] at hi
    simp [classify_job_level, hi, tierName]
  · have h0 := hfirst ⟨0, by omega⟩ (by exact Fin.mk_lt_mk.mpr (by omega))
    simp only [tierHit, tierKws] at hi h0
    rw [Bool.not_eq_true] at h0
    simp [classify_job_level, hi, h0, tierName]
  · have h0 := hfirst ⟨0, by omega⟩ (by exact Fin.mk_lt_mk.mpr (by omega))
    have h1 := hfirst ⟨1, by omega⟩ (by exact Fin.mk_lt_mk.mpr (by omega))
    simp only [tierHit, tierKws] at hi h0 h1
    rw [Bool.not_eq_true] at h0 h1
    simp [classify_job_level, hi, h0, h1, tierName]
  · have h0 := hfirst ⟨0, by omega⟩ (by exact Fin.mk_lt_mk.mpr (by omega))
    have h1 := hfirst ⟨1, by omega⟩ (by exact Fin.mk_lt_mk.mpr (by omega))
    have h2 := hfirst ⟨2, by omega⟩ (by exact Fin.mk_lt_mk.mpr (by omega))
    simp only [tierHit, tierKws] at hi h0 h1 h2
    rw [Bool.not_eq_true] at h0 h1 h2
    simp [classify_job_level, hi, h0, h1, h2, tierName]

/-- C1 witness: "Chief Director" hits both the c-level tier and the
director tier, and is classified c-level. -/
theorem classify_level_priority_order_witness :
    classify_job_level "Chief Director" = some (tierName 0) ∧
    classify_job_function "" = none ∧ classify_job_level "" = none :=
  classify_level_priority_order "Chief Director" 0 3 (by decide)
    (by decide) (by decide) (by intro k hk; exact absurd hk (by omega))

/-- C2 counterexample: two of the claim's concrete scenarios fail on the
code. "Director of Operations" is classified level "c-level", not
"director", because the c-level keyword "cto" occurs inside the word
"director"; and "Chief Financial Officer" is classified function `None`,
not "finance", because "finance" is not a substring of "financial". -/
theorem classify_function_scenarios_counterexample :
    classify_job_level "Director of Operations" = some "c-level" ∧
    (some "c-level" : Option String) ≠ some "director" ∧
    classify_job_function "Chief Financial Officer" = none ∧
    (none : Option String) ≠ some "finance" := by decide

/-- C2 (amended): a title whose lower-casing contains exactly one
recognized function keyword is classified as that keyword's function; a
title containing none is classified `None`; "Director of Operations"
gives function "operations" and level "c-level" ("cto" occurs inside
"director"); "VP of Strategy" gives function `None` and level "vp";
"Chief Financial Officer" gives function `None` ("finance" is not a
substring of "financial") and level "c-level". -/
theorem classify_function_unique_keyword (t s k f : String)
    (hmem : (k, f) ∈ functionPairs)
    (hin : pyIn k (pyLower t) = true)
    (huniq : ∀ p ∈ functionPairs, pyIn p.1 (pyLower t) = true → p = (k, f))
    (hnone : ∀ p ∈ functionPairs, pyIn p.1 (pyLower s) = false) :
    classify_job_function t = some f ∧
    classify_job_function s = none ∧
    classify_job_function "Director of Operations" = some "operations" ∧
    classify_job_level "Director of Operations" = some "c-level" ∧
    classify_job_function "VP of Strategy" = none ∧
    classify_job_level "VP of Strategy" = some "vp" ∧
    classify_job_function "Chief Financial Officer" = none ∧
    classify_job_level "Chief Financial Officer" = some "c-level" := by
  refine ⟨?_, ?_, by decide, by decide, by decide, by decide, by decide, by decide⟩
  · have hsnd := (show ∀ p ∈ functionPairs, p.2 = "operations" ∨ p.2 = "finance" ∨
        p.2 = "gtm" ∨ p.2 = "product" ∨ p.2 = "people" ∨ p.2 = "engineering" ∨
        p.2 = "marketing" by decide) (k, f) hmem
    rcases hsnd with hf | hf | hf | hf | hf | hf | hf <;> subst hf
    · have hks : k ∈ operationsKws :=
        (show ∀ p ∈ functionPairs, p.2 = "operations" → p.1 ∈ operationsKws by decide)
          (k, _) hmem rfl
      simp [classify_job_function,
        any_pyIn_eq_true_of_mem operationsKws (pyLower t) k hks hin]
    · have hks : k ∈ financeKws :=
        (show ∀ p ∈ functionPairs, p.2 = "finance" → p.1 ∈ financeKws by decide)
          (k, _) hmem rfl
      have e1 := any_pyIn_eq_false_of_unique operationsKws "operations" (pyLower t) k _
        (by decide) (by decide) huniq
      simp [classify_job_function, e1,
        any_pyIn_eq_true_of_mem financeKws (pyLower t) k hks hin]
    · have hks : k ∈ gtmKws :=
        (show ∀ p ∈ functionPairs, p.2 = "gtm" → p.1 ∈ gtmKws by decide)
          (k, _) hmem rfl
      have e1 := any_pyIn_eq_false_of_unique operationsKws "operations" (pyLower t) k _
        (by decide) (by decide) huniq
      have e2 := any_pyIn_eq_false_of_unique financeKws "finance" (pyLower t) k _
        (by decide) (by decide) huniq
      simp [classify_job_function, e1, e2,
        any_pyIn_eq_true_of_mem gtmKws (pyLower t) k hks hin]
    · have hks : k ∈ productKws :=
        (show ∀ p ∈ functionPairs, p.2 = "product" → p.1 ∈ productKws by decide)
          (k, _) hmem rfl
      have e1 := any_pyIn_eq_false_of_unique operationsKws "operations" (pyLower t) k _
        (by decide) (by decide) huniq
      have e2 := any_pyIn_eq_false_of_unique financeKws "finance" (pyLower t) k _
        (by decide) (by decide) huniq
      have e3 := any_pyIn_eq_false_of_unique gtmKws "gtm" (pyLower t) k _
        (by decide) (by decide) huniq
      simp [classify_job_function, e1, e2, e3,
        any_pyIn_eq_true_of_mem productKws (pyLower t) k hks hin]
    · have hks : k ∈ peopleKws :=
        (show ∀ p ∈ functionPairs, p.2 = "people" → p.1 ∈ peopleKws by decide)
          (k, _) hmem rfl
      have e1 := any_pyIn_eq_false_of_unique operationsKws "operations" (pyLower t) k _
        (by decide) (by decide) huniq
      have e2 := any_pyIn_eq_false_of_unique financeKws "finance" (pyLower t) k _
        (by decide) (by decide) huniq
      have e3 := any_pyIn_eq_false_of_unique gtmKws "gtm" (pyLower t) k _
        (by decide) (by decide) huniq
      have e4 := any_pyIn_eq_false_of_unique productKws "product" (pyLower t) k _
        (by decide) (by decide) huniq
      simp [classify_job_function, e1, e2, e3, e4,
        any_pyIn_eq_true_of_mem peopleKws (pyLower t) k hks hin]
    · have hks : k ∈ engineeringKws :=
        (show ∀ p ∈ functionPairs, p.2 = "engineering" → p.1 ∈ engineeringKws by decide)
          (k, _) hmem rfl
      have e1 := any_pyIn_eq_false_of_unique operationsKws "operations" (pyLower t) k _
        (by decide) (by decide) huniq
      have e2 := any_pyIn_eq_false_of_unique financeKws "finance" (pyLower t) k _
        (by decide) (by decide) huniq
      have e3 := any_pyIn_eq_false_of_unique gtmKws "gtm" (pyLower t) k _
        (by decide) (by decide) huniq
      have e4 := any_pyIn_eq_false_of_unique productKws "product" (pyLower t) k _
        (by decide) (by decide) huniq
      have e5 := any_pyIn_eq_false_of_unique peopleKws "people" (pyLower t) k _
        (by decide) (by decide) huniq
      simp [classify_job_function, e1, e2, e3, e4, e5,
        any_pyIn_eq_true_of_mem engineeringKws (pyLower t) k hks hin]
    · have hks : k ∈ marketingKws :=
        (show ∀ p ∈ functionPairs, p.2 = "marketing" → p.1 ∈ marketingKws by decide)
          (k, _) hmem rfl
      have e1 := any_pyIn_eq_false_of_unique operationsKws "operations" (pyLower t) k _
        (by decide) (by decide) huniq
      have e2 := any_pyIn_eq_false_of_unique financeKws "finance" (pyLower t) k _
        (by decide) (by decide) huniq
      have e3 := any_pyIn_eq_false_of_unique gtmKws "gtm" (pyLower t) k _
        (by decide) (by decide) huniq
      have e4 := any_pyIn_eq_false_of_unique productKws "product" (pyLower t) k _
        (by decide) (by decide) huniq
      have e5 := any_pyIn_eq_false_of_unique peopleKws "people" (pyLower t) k _
        (by decide) (by decide) huniq
      have e6 := any_pyIn_eq_false_of_unique engineeringKws "engineering" (pyLower t) k _
        (by decide) (by decide) huniq
      simp [classify_job_function, e1, e2, e3, e4, e5, e6,
        any_pyIn_eq_true_of_mem marketingKws (pyLower t) k hks hin]
  · have f1 := any_pyIn_eq_false_of_none operationsKws "operations" (pyLower s)
      (by decide) hnone
    have f2 := any_pyIn_eq_false_of_none financeKws "finance" (pyLower s)
      (by decide) hnone
    have f3 := any_pyIn_eq_false_of_none gtmKws "gtm" (pyLower s)
      (by decide) hnone
    have f4 := any_pyIn_eq_false_of_none productKws "product" (pyLower s)
      (by decide) hnone
    have f5 := any_pyIn_eq_false_of_none peopleKws "people" (pyLower s)
      (by decide) hnone
    have f6 := any_pyIn_eq_false_of_none engineeringKws "engineering" (pyLower s)
      (by decide) hnone
    have f7 := any_pyIn_eq_false_of_none marketingKws "marketing" (pyLower s)
      (by decide) hnone
    simp [classify_job_function, f1, f2, f3, f4, f5, f6, f7]

/-- C2 witness: "Director of Operations" contains exactly the keyword
"operations" (of function "operations"), and "Quant Researcher" contains
no function keyword. -/
theorem classify_function_unique_keyword_witness :
    classify_job_function "Director of Operations" = some "operations" ∧
    classify_job_function "Quant Researcher" = none ∧
    classify_job_function "Director of Operations" = some "operations" ∧
    classify_job_level "Director of Operations" = some "c-level" ∧
    classify_job_function "VP of Strategy" = none ∧
    classify_job_level "VP of Strategy" = some "vp" ∧
    classify_job_function "Chief Financial Officer" = none ∧
    classify_job_level "Chief Financial Officer" = some "c-level" :=
  classify_function_unique_keyword "Director of Operations" "Quant Researcher"
    "operations" "operations" (by decide) (by decide) (by decide) (by decide)

/-- C3: `process_job_posting` splits `location_raw` on commas: empty or
absent value gives no location; one part gives a trimmed city and no
state; two or more parts give the first part trimmed as city and the
last part trimmed, truncated to 2 characters, as state; with the four
concrete scenarios from the spec. -/
theorem process_location_parsing (now : String) (job : RawJob) :
    ((job.location_raw.getD "") = "" →
      (process_job_posting now job).location_city = none ∧
      (process_job_posting now job).location_state = none) ∧
    (¬ (job.location_raw.getD "") = "" →
      (splitComma (job.location_raw.getD "").data).length = 1 →
      (process_job_posting now job).location_city =
        some (String.mk (pyStrip ((splitComma (job.location_raw.getD "").data).headD []))) ∧
      (process_job_posting now job).location_state = none) ∧
    (¬ (job.location_raw.getD "") = "" →
      2 ≤ (splitComma (job.location_raw.getD "").data).length →
      (process_job_posting now job).location_city =
        some (String.mk (pyStrip ((splitComma (job.location_raw.getD "").data).headD []))) ∧
      (process_job_posting now job).location_state =
        some (String.mk ((pyStrip ((splitComma (job.location_raw.getD "").data).getLastD [])).take 2))) ∧
    (process_job_posting now { location_raw := some "San Francisco, CA" }).location_city
      = some "San Francisco" ∧
    (process_job_posting now { location_raw := some "San Francisco, CA" }).location_state
      = some "CA" ∧
    (process_job_posting now { location_raw := some "Remote" }).location_city
      = some "Remote" ∧
    (process_job_posting now { location_raw := some "Remote" }).location_state = none ∧
    (process_job_posting now { location_raw := some "" }).location_city = none ∧
    (process_job_posting now { location_raw := some "" }).location_state = none ∧
    (process_job_posting now { location_raw := some "A, B, C" }).location_city = some "A" ∧
    (process_job_posting now { location_raw := some "A, B, C" }).location_state = some "C" := by
  refine ⟨?_, ?_, ?_, rfl, rfl, rfl, rfl, rfl, rfl, rfl, rfl⟩
  · intro h
    simp [process_job_posting, h]
  · intro hne hlen
    simp [process_job_posting, hne, hlen]
  · intro hne hlen
    simp [process_job_posting, hne, hlen]

/-- C3 witness: the three split cases at concrete locations. -/
theorem process_location_parsing_witness :
    ((process_job_posting "T" { location_raw := some "" }).location_city = none ∧
      (process_job_posting "T" { location_raw := some "" }).location_state = none) ∧
    ((process_job_posting "T" { location_raw := some "Remote" }).location_city
        = some "Remote" ∧
      (process_job_posting "T" { location_raw := some "Remote" }).location_state = none) ∧
    ((process_job_posting "T" { location_raw := some "San Francisco, CA" }).location_city
        = some "San Francisco" ∧
      (process_job_posting "T" { location_raw := some "San Francisco, CA" }).location_state
        = some "CA") := by
  have h1 := (process_location_parsing "T" { location_raw := some "" }).1 rfl
  have h2 := (process_location_parsing "T" { location_raw := some "Remote" }).2.1
    (by decide) (by decide)
  have h3 := (process_location_parsing "T" { location_raw := some "San Francisco, CA" }).2.2.1
    (by decide) (by decide)
  exact ⟨h1, ⟨h2.1.trans (by decide), h2.2⟩, ⟨h3.1.trans (by decide), h3.2.trans (by decide)⟩⟩

/-- C4 counterexample: the claim says every required output field absent
from the input defaults to empty (empty string / False / None), but
`first_seen` absent from the input defaults to the current UTC timestamp
(`datetime.utcnow().isoformat()`), which is not empty. -/
theorem process_defaults_counterexample :
    (process_job_posting "2025-06-15T00:00:00" {}).first_seen = "2025-06-15T00:00:00" ∧
    "2025-06-15T00:00:00" ≠ "" := ⟨rfl, by decide⟩

/-- C4 (amended): `process_job_posting` is total: on any input record
with any subset of fields missing it returns a processed record, with
absent fields defaulted (empty string for string fields, `False` for
`is_remote`, `None` for the location fields, and the current UTC
timestamp for `first_seen` and `scraped_at`) rather than failing. -/
theorem process_total_defaults (now : String) (job : RawJob) :
    (job.source_job_id = none → (process_job_posting now job).source_job_id = "") ∧
    (job.company_id = none → (process_job_posting now job).company_id = "") ∧
    (job.title = none → (process_job_posting now job).title = "" ∧
      (process_job_posting now job).function = none ∧
      (process_job_posting now job).level = none) ∧
    (job.url = none → (process_job_posting now job).url = "") ∧
    (job.first_seen = none → (process_job_posting now job).first_seen = now) ∧
    (job.location_raw = none → (process_job_posting now job).location_city = none ∧
      (process_job_posting now job).location_state = none) ∧
    (job.is_remote = none → (process_job_posting now job).is_remote = false) ∧
    (job.source_url = none → (process_job_posting now job).source_url = "") ∧
    (job.scraped_at = none → (process_job_posting now job).scraped_at = now) := by
  refine ⟨fun h => ?_, fun h => ?_, fun h => ⟨?_, ?_, ?_⟩, fun h => ?_, fun h => ?_,
    fun h => ?_, fun h => ?_, fun h => ?_, fun h => ?_⟩ <;>
    simp [process_job_posting, h] <;> decide

/-- C4 witness: processing the empty record yields all defaults. -/
theorem process_total_defaults_witness :
    (process_job_posting "T" {}).source_job_id = "" ∧
    (process_job_posting "T" {}).company_id = "" ∧
    (process_job_posting "T" {}).title = "" ∧
    (process_job_posting "T" {}).function = none ∧
    (process_job_posting "T" {}).level = none ∧
    (process_job_posting "T" {}).url = "" ∧
    (process_job_posting "T" {}).first_seen = "T" ∧
    (process_job_posting "T" {}).location_city = none ∧
    (process_job_posting "T" {}).location_state = none ∧
    (process_job_posting "T" {}).is_remote = false ∧
    (process_job_posting "T" {}).source_url = "" ∧
    (process_job_posting "T" {}).scraped_at = "T" := by
  obtain ⟨h1, h2, h3, h4, h5, h6, h7, h8, h9⟩ := process_total_defaults "T" {}
  exact ⟨h1 rfl, h2 rfl, (h3 rfl).1, (h3 rfl).2.1, (h3 rfl).2.2, h4 rfl, h5 rfl,
    (h6 rfl).1, (h6 rfl).2, h7 rfl, h8 rfl, h9 rfl⟩

lemma inTarget_eq_true (x : Option String) (S : List String) :
    inTarget x S = true ↔ ∃ v, x = some v ∧ v ∈ S := by
  cases x <;> simp [inTarget]

/-- C7: `filter_target_jobs` keeps exactly the jobs whose function and
level are both in the target sets; a `None` function or level is always
excluded; the output is a sublist of the input (stable filtering). -/
theorem filter_target_jobs_spec (jobs : List Job) (j : Job) :
    (j ∈ filter_target_jobs jobs ↔ j ∈ jobs ∧
      (∃ f, j.function = some f ∧ f ∈ TARGET_FUNCTIONS) ∧
      (∃ l, j.level = some l ∧ l ∈ TARGET_LEVELS)) ∧
    (j.function = none ∨ j.level = none → j ∉ filter_target_jobs jobs) ∧
    List.Sublist (filter_target_jobs jobs) jobs := by
  refine ⟨?_, ?_, List.filter_sublist _⟩
  · rw [filter_target_jobs, List.mem_filter]
    simp [inTarget_eq_true]
  · intro h hmem
    rw [filter_target_jobs, List.mem_filter] at hmem
    rcases h with h | h <;> simp [h, inTarget] at hmem

/-- C7 witness: a job with no function is dropped. -/
theorem filter_target_jobs_witness :
    jobNoFn ∉ filter_target_jobs [jobA, jobNoFn] :=
  (filter_target_jobs_spec [jobA, jobNoFn] jobNoFn).2.1 (Or.inl rfl)

lemma lookupStats_cons (e : String × Nat × Nat) (m : List (String × Nat × Nat))
    (f : String) :
    lookupStats (e :: m) f = if e.1 = f then e.2 else lookupStats m f := by
  by_cases h : e.1 = f
  · rw [lookupStats, List.find?_cons_of_pos _ (by simp [h]), if_pos h]
  · rw [lookupStats, List.find?_cons_of_neg _ (by simp [h]), if_neg h, lookupStats]

lemma lookupStats_nil (f : String) : lookupStats [] f = (0, 0) := rfl

lemma lookupStats_bump (m : List (String × Nat × Nat)) (g f : String) (b : Bool) :
    lookupStats (bumpStats m g b) f =
      if g = f then
        ((lookupStats m g).1 + (if b then 1 else 0),
         (lookupStats m g).2 + (if b then 0 else 1))
      else lookupStats m f := by
  induction m with
  | nil =>
    by_cases hgf : g = f
    · subst hgf; cases b <;> simp [bumpStats, lookupStats_cons, lookupStats_nil]
    · cases b <;> simp [bumpStats, lookupStats_cons, lookupStats_nil, hgf]
  | cons hd tl ih =>
    obtain ⟨g0, s0, f0⟩ := hd
    by_cases h0 : g0 = g
    · subst h0
      by_cases hgf : g0 = f
      · subst hgf
        cases b <;> simp [bumpStats, lookupStats_cons]
      · cases b <;> simp [bumpStats, lookupStats_cons, hgf]
    · rw [show bumpStats ((g0, s0, f0) :: tl) g b = (g0, s0, f0) :: bumpStats tl g b
        from by simp [bumpStats, h0]]
      rw [lookupStats_cons, ih]
      by_cases hf : g0 = f
      · subst hf
        simp [lookupStats_cons, Ne.symm h0]
      · simp [lookupStats_cons, h0, hf]

lemma compute_staleness_foldl (now : Int) (jobs : List Job)
    (acc : List (String × Nat × Nat)) (f : String) :
    lookupStats (jobs.foldl (stalenessStep now) acc) f =
      ((lookupStats acc f).1 +
        (jobs.countP fun j =>
          decide (j.function = some f) && !(decide (f = "")) && isStale now j),
       (lookupStats acc f).2 +
        (jobs.countP fun j =>
          decide (j.function = some f) && !(decide (f = "")) && !(isStale now j))) := by
  induction jobs generalizing acc with
  | nil => simp
  | cons j rest ih =>
    rw [List.foldl_cons, ih]
    cases hj : j.function with
    | none => simp [stalenessStep, hj, List.countP_cons]
    | some g =>
      by_cases hg : g = ""
      · subst hg
        have hstep : stalenessStep now acc j = acc := by
          rw [stalenessStep, hj]
          simp
        rw [hstep]
        have hdec : (decide (j.function = some f) && !(decide (f = ""))) = false := by
          rw [hj]
          by_cases hf : f = ""
          · simp [hf]
          · simp [Ne.symm hf]
        simp [List.countP_cons, hdec]
      · have hstep : stalenessStep now acc j = bumpStats acc g (isStale now j) := by
          rw [stalenessStep, hj]
          simp [hg]
        rw [hstep]
        by_cases hgf : g = f
        · subst hgf
          rw [Prod.ext_iff]
          cases hb : isStale now j <;>
            constructor <;>
            simp [hj, lookupStats_bump, List.countP_cons, hb, hg] <;>
            omega
        · simp [hj, lookupStats_bump, hgf, List.countP_cons]

lemma compute_staleness_skip (now : Int) (jobs : List Job)
    (acc : List (String × Nat × Nat)) :
    jobs.foldl (stalenessStep now) acc =
      (jobs.filter fun j => j.function.getD "" ≠ "").foldl (stalenessStep now) acc := by
  induction jobs generalizing acc with
  | nil => rfl
  | cons j rest ih =>
    cases hj : j.function with
    | none =>
      have hstep : stalenessStep now acc j = acc := by rw [stalenessStep, hj]
      simp [List.foldl_cons, hstep, List.filter_cons, hj, ih]
    | some g =>
      by_cases hg : g = ""
      · subst hg
        have hstep : stalenessStep now acc j = acc := by
          rw [stalenessStep, hj]
          simp
        simp [List.foldl_cons, hstep, List.filter_cons, hj, ih]
      · simp only [List.foldl_cons, List.filter_cons, hj]
        rw [if_pos (by simp [hg])]
        rw [List.foldl_cons]
        exact ih _

/-- C5 counterexample: the claim says every job with a non-None function
is counted as stale exactly when its floored age reaches the threshold,
but `if not j.function: continue` uses Python truthiness, so a job whose
function is the empty string (non-None) and whose age is 46 days is
counted in neither bucket: its function's buckets stay `(0, 0)`, not the
`(1, 0)` the claim requires. -/
theorem compute_staleness_truthiness_counterexample :
    jobEmptyFn.function ≠ none ∧
    STALE_DAYS ≤ Int.fdiv (0 - jobEmptyFn.first_seen) 86400 ∧
    lookupStats (compute_staleness 0 [jobEmptyFn]) "" = (0, 0) ∧
    ((0 : Nat), (0 : Nat)) ≠ (1, 0) := by decide

/-- C5 (amended): `compute_staleness` counts, per function f, exactly
the jobs with truthy function f (non-None and non-empty) whose floored
age in days reaches `STALE_DAYS` = 45 as stale and the others as fresh
(so the boundary is inclusive: a job first seen exactly 45 days ago is
stale and one first seen 44 days ago is fresh), and jobs with a falsy
function — `None` or the empty string — are excluded entirely: filtering
them from the input changes nothing. -/
theorem compute_staleness_spec (now : Int) (jobs : List Job) (f : String) :
    lookupStats (compute_staleness now jobs) f =
      ((jobs.countP fun j => decide (j.function = some f) && !(decide (f = "")) &&
          decide (STALE_DAYS ≤ Int.fdiv (now - j.first_seen) 86400)),
       (jobs.countP fun j => decide (j.function = some f) && !(decide (f = "")) &&
          !(decide (STALE_DAYS ≤ Int.fdiv (now - j.first_seen) 86400)))) ∧
    compute_staleness now jobs =
      compute_staleness now (jobs.filter fun j => j.function.getD "" ≠ "") ∧
    (∀ j : Job, isStale now j = true ↔ STALE_DAYS ≤ Int.fdiv (now - j.first_seen) 86400) ∧
    isStale now (jobAtBoundary now) = true ∧
    isStale now (jobBelowBoundary now) = false := by
  refine ⟨?_, ?_, ?_, ?_, ?_⟩
  · have h := compute_staleness_foldl now jobs [] f
    simpa [compute_staleness, lookupStats, isStale, timedeltaDays] using h
  · rw [compute_staleness, compute_staleness]
    exact compute_staleness_skip now jobs []
  · intro j
    simp [isStale, timedeltaDays]
  · simp only [isStale, jobAtBoundary, timedeltaDays, STALE_DAYS, decide_eq_true_eq]
    have h : now - (now - 45 * 86400) = 45 * 86400 := by ring
    rw [h, Int.fdiv_eq_ediv _ (by norm_num)]
    decide
  · simp only [isStale, jobBelowBoundary, timedeltaDays, STALE_DAYS]
    rw [Bool.eq_false_iff]
    simp only [ne_eq, decide_eq_true_eq, not_le]
    have h : now - (now - 44 * 86400) = 44 * 86400 := by ring
    rw [h, Int.fdiv_eq_ediv _ (by norm_num)]
    decide

lemma lookupCount_cons (e : (String × String) × Nat) (m : List ((String × String) × Nat))
    (k : String × String) :
    lookupCount (e :: m) k = if e.1 = k then some e.2 else lookupCount m k := by
  by_cases h : e.1 = k
  · rw [lookupCount, List.find?_cons_of_pos _ (by simp [h]), if_pos h]
    rfl
  · rw [lookupCount, List.find?_cons_of_neg _ (by simp [h]), if_neg h, lookupCount]

lemma lookupCount_bump (m : List ((String × String) × Nat)) (g k : String × String) :
    lookupCount (bumpCount m g) k =
      if g = k then some ((lookupCount m g).getD 0 + 1) else lookupCount m k := by
  induction m with
  | nil =>
    by_cases hgk : g = k
    · subst hgk; simp [bumpCount, lookupCount_cons, lookupCount]
    · simp [bumpCount, lookupCount_cons, lookupCount, hgk]
  | cons hd tl ih =>
    obtain ⟨k0, c⟩ := hd
    by_cases h0 : k0 = g
    · subst h0
      by_cases hk : k0 = k
      · subst hk; simp [bumpCount, lookupCount_cons]
      · simp [bumpCount, lookupCount_cons, hk]
    · rw [show bumpCount ((k0, c) :: tl) g = (k0, c) :: bumpCount tl g
        from by simp [bumpCount, h0]]
      rw [lookupCount_cons, ih]
      by_cases hk : k0 = k
      · subst hk
        simp [lookupCount_cons, Ne.symm h0]
      · simp [lookupCount_cons, h0, hk]

lemma compute_volume_foldl (jobs : List Job) (acc : List ((String × String) × Nat))
    (k : String × String) :
    lookupCount (jobs.foldl volumeStep acc) k =
      match lookupCount acc k with
      | some c => some (c + (jobs.countP fun j =>
          decide (j.function = some k.1) && decide (j.level = some k.2) &&
            !(decide (k.1 = "")) && !(decide (k.2 = ""))))
      | none =>
        if (jobs.countP fun j =>
            decide (j.function = some k.1) && decide (j.level = some k.2) &&
              !(decide (k.1 = "")) && !(decide (k.2 = ""))) = 0
        then none
        else some (jobs.countP fun j =>
          decide (j.function = some k.1) && decide (j.level = some k.2) &&
            !(decide (k.1 = "")) && !(decide (k.2 = ""))) := by
  induction jobs generalizing acc with
  | nil => cases h : lookupCount acc k <;> simp [h]
  | cons j rest ih =>
    rw [List.foldl_cons]
    cases hf : j.function with
    | none =>
      rw [show volumeStep acc j = acc from by simp [volumeStep, hf], ih]
      cases h : lookupCount acc k <;> simp [h, List.countP_cons, hf]
    | some g =>
      cases hl : j.level with
      | none =>
        rw [show volumeStep acc j = acc from by rw [volumeStep, hf, hl], ih]
        cases h : lookupCount acc k <;> simp [h, List.countP_cons, hf, hl]
      | some l =>
        by_cases hgl : g = "" ∨ l = ""
        · have hstep : volumeStep acc j = acc := by
            rw [volumeStep, hf, hl]
            rcases hgl with hh | hh <;> simp [hh]
          rw [hstep, ih]
          have hdec : (decide (j.function = some k.1) && decide (j.level = some k.2) &&
              !(decide (k.1 = "")) && !(decide (k.2 = ""))) = false := by
            rw [hf, hl]
            rcases hgl with hh | hh
            · subst hh
              by_cases hk1 : k.1 = ""
              · simp [hk1]
              · simp [Ne.symm hk1]
            · subst hh
              by_cases hk2 : k.2 = ""
              · simp [hk2]
              · simp [Ne.symm hk2]
          cases h : lookupCount acc k <;> simp [h, List.countP_cons, hdec]
        · push_neg at hgl
          obtain ⟨hg, hle⟩ := hgl
          have hstep : volumeStep acc j = bumpCount acc (g, l) := by
            rw [volumeStep, hf, hl]
            simp [hg, hle]
          rw [hstep, ih]
          by_cases hk : (g, l) = k
          · subst hk
            rw [lookupCount_bump]
            cases h : lookupCount acc (g, l) <;>
              simp [h, List.countP_cons, hf, hl, hg, hle] <;>
              omega
          · rw [lookupCount_bump, if_neg hk]
            have hpred : (decide (j.function = some k.1) &&
                decide (j.level = some k.2)) = false := by
              rw [hf, hl]
              rcases k with ⟨k1, k2⟩
              simp only [Prod.mk.injEq, not_and] at hk
              by_cases h1 : g = k1
              · subst h1
                simp [hk rfl]
              · simp [h1]
            cases h : lookupCount acc k <;> simp [h, List.countP_cons, hpred]

lemma compute_volume_skip (jobs : List Job) (acc : List ((String × String) × Nat)) :
    jobs.foldl volumeStep acc =
      (jobs.filter fun j =>
        j.function.getD "" ≠ "" && j.level.getD "" ≠ "").foldl volumeStep acc := by
  induction jobs generalizing acc with
  | nil => rfl
  | cons j rest ih =>
    cases hf : j.function with
    | none =>
      have hstep : volumeStep acc j = acc := by simp [volumeStep, hf]
      simp [List.foldl_cons, hstep, List.filter_cons, hf, ih]
    | some g =>
      cases hl : j.level with
      | none =>
        have hstep : volumeStep acc j = acc := by rw [volumeStep, hf, hl]
        simp [List.foldl_cons, hstep, List.filter_cons, hf, hl, ih]
      | some l =>
        by_cases hg : g = ""
        · subst hg
          have hstep : volumeStep acc j = acc := by
            rw [volumeStep, hf, hl]
            simp
          simp [List.foldl_cons, hstep, List.filter_cons, hf, hl, ih]
        · by_cases hle : l = ""
          · subst hle
            have hstep : volumeStep acc j = acc := by
              rw [volumeStep, hf, hl]
              simp
            simp [List.foldl_cons, hstep, List.filter_cons, hf, hl, hg, ih]
          · simp only [List.foldl_cons, List.filter_cons, hf, hl]
            rw [if_pos (by simp [hg, hle])]
            rw [List.foldl_cons]
            exact ih _

/-- C9: `compute_volume` is order-independent: permuting the input does
not change the resulting (function, level) -> count mapping; the mapping
counts exactly the jobs whose function and level are both present
(truthy: non-None and non-empty, per `if j.function and j.level:`) and
equal to the key, combinations with no such job are absent, and jobs
with a falsy function or level are excluded entirely: filtering them
from the input changes nothing. -/
theorem compute_volume_perm_invariant (jobs jobs' : List Job) (k : String × String)
    (h : jobs.Perm jobs') :
    lookupCount (compute_volume jobs) k = lookupCount (compute_volume jobs') k ∧
    lookupCount (compute_volume jobs) k =
      (if (jobs.countP fun j =>
            decide (j.function = some k.1) && decide (j.level = some k.2) &&
              !(decide (k.1 = "")) && !(decide (k.2 = ""))) = 0
       then none
       else some (jobs.countP fun j =>
         decide (j.function = some k.1) && decide (j.level = some k.2) &&
           !(decide (k.1 = "")) && !(decide (k.2 = "")))) ∧
    compute_volume jobs =
      compute_volume (jobs.filter fun j =>
        j.function.getD "" ≠ "" && j.level.getD "" ≠ "") := by
  have hchar : ∀ js : List Job, lookupCount (compute_volume js) k =
      (if (js.countP fun j =>
            decide (j.function = some k.1) && decide (j.level = some k.2) &&
              !(decide (k.1 = "")) && !(decide (k.2 = ""))) = 0
       then none
       else some (js.countP fun j =>
         decide (j.function = some k.1) && decide (j.level = some k.2) &&
           !(decide (k.1 = "")) && !(decide (k.2 = "")))) := by
    intro js
    rw [compute_volume, compute_volume_foldl]
    rfl
  refine ⟨?_, hchar jobs, ?_⟩
  · rw [hchar jobs, hchar jobs',
      h.countP_eq fun j => decide (j.function = some k.1) && decide (j.level = some k.2) &&
        !(decide (k.1 = "")) && !(decide (k.2 = ""))]
  · rw [compute_volume, compute_volume]
    exact compute_volume_skip jobs []

/-- C9 witness: swapping two concrete jobs leaves the count mapping
unchanged at the key ("gtm", "vp"). -/
theorem compute_volume_perm_invariant_witness :
    lookupCount (compute_volume [jobA, jobB]) ("gtm", "vp") =
      lookupCount (compute_volume [jobB, jobA]) ("gtm", "vp") :=
  (compute_volume_perm_invariant [jobA, jobB] [jobB, jobA] ("gtm", "vp")
    (List.Perm.swap jobB jobA [])).1

lemma beginsWith_iff (a b : List Char) : beginsWith a b = true ↔ ∃ r, b = a ++ r := by
  induction a generalizing b with
  | nil => simp [beginsWith]
  | cons x xs ih =>
    cases b with
    | nil => simp [beginsWith]
    | cons y ys =>
      rw [beginsWith]
      simp only [Bool.and_eq_true, decide_eq_true_eq, ih, List.cons_append,
        List.cons.injEq]
      constructor
      · rintro ⟨hxy, r, hr⟩
        exact ⟨r, hxy.symm, hr⟩
      · rintro ⟨r, hyx, hr⟩
        exact ⟨hyx.symm, r, hr⟩

lemma containsB_iff (n h : List Char) : containsB n h = true ↔ ∃ s t, h = s ++ (n ++ t) := by
  induction h with
  | nil => cases n <;> simp [containsB]
  | cons c t ih =>
    rw [containsB]
    simp only [Bool.or_eq_true, beginsWith_iff, ih]
    constructor
    · rintro (⟨r, hr⟩ | ⟨s, t', ht⟩)
      · exact ⟨[], r, by simp [hr]⟩
      · exact ⟨c :: s, t', by simp [ht]⟩
    · rintro ⟨s, t', hst⟩
      cases s with
      | nil => exact Or.inl ⟨t', by simpa using hst⟩
      | cons s0 ss =>
        simp only [List.cons_append, List.cons.injEq] at hst
        exact Or.inr ⟨ss, t', hst.2⟩

lemma pyIn_trans (a b c : String) (hab : pyIn a b = true) (hbc : pyIn b c = true) :
    pyIn a c = true := by
  rw [pyIn, containsB_iff] at hab hbc ⊢
  obtain ⟨s1, t1, h1⟩ := hab
  obtain ⟨s2, t2, h2⟩ := hbc
  refine ⟨s2 ++ s1, t1 ++ t2, ?_⟩
  rw [h2, h1]
  simp [List.append_assoc]

/-- C8: `detect_ats_platform` applies ordered substring checks on the
lower-cased URL, first match winning: ashby ("ashbyhq.com" or "ashby"),
then greenhouse ("greenhouse.io"), then lever ("lever.co"), then workday
("workday" or "myworkdayjobs.com"); a missing or empty URL, or one
matching nothing, is unknown; and a URL containing both "ashby" and
"greenhouse.io" maps to ashby. -/
theorem detect_ats_platform_priority (u : String) :
    detect_ats_platform none = "unknown" ∧
    detect_ats_platform (some "") = "unknown" ∧
    ((pyIn "ashbyhq.com" (pyLower u) || pyIn "ashby" (pyLower u)) = true →
      detect_ats_platform (some u) = "ashby") ∧
    ((pyIn "ashbyhq.com" (pyLower u) || pyIn "ashby" (pyLower u)) = false →
      pyIn "greenhouse.io" (pyLower u) = true →
      detect_ats_platform (some u) = "greenhouse") ∧
    ((pyIn "ashbyhq.com" (pyLower u) || pyIn "ashby" (pyLower u)) = false →
      pyIn "greenhouse.io" (pyLower u) = false →
      pyIn "lever.co" (pyLower u) = true →
      detect_ats_platform (some u) = "lever") ∧
    ((pyIn "ashbyhq.com" (pyLower u) || pyIn "ashby" (pyLower u)) = false →
      pyIn "greenhouse.io" (pyLower u) = false →
      pyIn "lever.co" (pyLower u) = false →
      (pyIn "workday" (pyLower u) || pyIn "myworkdayjobs.com" (pyLower u)) = true →
      detect_ats_platform (some u) = "workday") ∧
    ((pyIn "ashbyhq.com" (pyLower u) || pyIn "ashby" (pyLower u)) = false →
      pyIn "greenhouse.io" (pyLower u) = false →
      pyIn "lever.co" (pyLower u) = false →
      (pyIn "workday" (pyLower u) || pyIn "myworkdayjobs.com" (pyLower u)) = false →
      detect_ats_platform (some u) = "unknown") ∧
    detect_ats_platform (some "jobs.ashby.example.com/boards.greenhouse.io") = "ashby" := by
  by_cases hu : u = ""
  · subst hu
    refine ⟨rfl, rfl, ?_, ?_, ?_, ?_, ?_, by decide⟩
    · intro h; revert h; decide
    · intro _ h; revert h; decide
    · intro _ _ h; revert h; decide
    · intro _ _ _ h; revert h; decide
    · intro _ _ _ _; rfl
  · have hboards : pyIn "greenhouse.io" (pyLower u) = false →
        pyIn "boards.greenhouse.io" (pyLower u) = false := by
      intro hg
      rw [Bool.eq_false_iff]
      intro hb
      rw [pyIn_trans "greenhouse.io" "boards.greenhouse.io" (pyLower u) (by decide) hb]
        at hg
      simp at hg
    refine ⟨rfl, rfl, ?_, ?_, ?_, ?_, ?_, by decide⟩
    · intro ha
      simp [detect_ats_platform, hu, ha]
    · intro ha hg
      simp [detect_ats_platform, hu, ha, hg]
    · intro ha hg hl
      simp [detect_ats_platform, hu, ha, hg, hboards hg, hl]
    · intro ha hg hl hw
      have hjl : pyIn "jobs.lever.co" (pyLower u) = false := by
        rw [Bool.eq_false_iff]
        intro hb
        rw [pyIn_trans "lever.co" "jobs.lever.co" (pyLower u) (by decide) hb] at hl
        simp at hl
      simp [detect_ats_platform, hu, ha, hg, hboards hg, hl, hjl, hw]
    · intro ha hg hl hw
      have hjl : pyIn "jobs.lever.co" (pyLower u) = false := by
        rw [Bool.eq_false_iff]
        intro hb
        rw [pyIn_trans "lever.co" "jobs.lever.co" (pyLower u) (by decide) hb] at hl
        simp at hl
      simp [detect_ats_platform, hu, ha, hg, hboards hg, hl, hjl, hw]

/-- C8 witness: a lever URL, with every earlier check false. -/
theorem detect_ats_platform_priority_witness :
    detect_ats_platform (some "https://jobs.lever.co/acme") = "lever" :=
  (detect_ats_platform_priority "https://jobs.lever.co/acme").2.2.2.2.1
    (by decide) (by decide) (by decide)

/-- C10: function classification matches keywords by raw substring
containment, not word boundaries: "Threat Analyst" contains no function
keyword other than "hr", which occurs inside the word "threat", yet it
is classified "people" rather than `None`. -/
theorem classify_function_substring_artifact :
    classify_job_function "Threat Analyst" = some "people" ∧
    pyIn "hr" (pyLower "Threat Analyst") = true ∧
    (∀ p ∈ functionPairs, p.1 ≠ "hr" → pyIn p.1 (pyLower "Threat Analyst") = false) := by
  decide

lemma charListLe_total (a b : List Char) : charListLe a b = true ∨ charListLe b a = true := by
  induction a generalizing b with
  | nil => exact Or.inl rfl
  | cons x xs ih =>
    cases b with
    | nil => exact Or.inr rfl
    | cons y ys =>
      by_cases hxy : x = y
      · subst hxy
        rcases ih ys with h | h
        · exact Or.inl (by simp [charListLe, h])
        · exact Or.inr (by simp [charListLe, h])
      · rcases lt_trichotomy x y with hlt | heq | hgt
        · exact Or.inl (by simp [charListLe, hxy, hlt])
        · exact absurd heq hxy
        · exact Or.inr (by simp [charListLe, Ne.symm hxy, hgt])

lemma charListLe_trans (a b c : List Char) (hab : charListLe a b = true)
    (hbc : charListLe b c = true) : charListLe a c = true := by
  induction a generalizing b c with
  | nil => rfl
  | cons x xs ih =>
    cases b with
    | nil => simp [charListLe] at hab
    | cons y ys =>
      cases c with
      | nil => simp [charListLe] at hbc
      | cons z zs =>
        by_cases hxy : x = y <;> by_cases hyz : y = z
        · subst hxy; subst hyz
          rw [charListLe, if_pos rfl] at hab hbc ⊢
          exact ih ys zs hab hbc
        · subst hxy
          rw [charListLe, if_neg hyz] at hbc
          rw [charListLe, if_neg hyz]
          exact hbc
        · subst hyz
          rw [charListLe, if_neg hxy] at hab
          rw [charListLe, if_neg hxy]
          exact hab
        · rw [charListLe, if_neg hxy] at hab
          rw [charListLe, if_neg hyz] at hbc
          have hlt : x < z :=
            lt_trans (of_decide_eq_true hab) (of_decide_eq_true hbc)
          rw [charListLe, if_neg (ne_of_lt hlt)]
          exact decide_eq_true hlt

lemma rankLE_total (a b : Job × Nat) : rankLE a b = true ∨ rankLE b a = true := by
  rcases Nat.lt_trichotomy a.2 b.2 with h | h | h
  · exact Or.inr (by simp [rankLE, h])
  · rcases charListLe_total a.1.title.data b.1.title.data with hs | hs
    · exact Or.inl (by simp [rankLE, strLe, h, hs])
    · exact Or.inr (by simp [rankLE, strLe, h.symm, hs])
  · exact Or.inl (by simp [rankLE, h])

lemma rankLE_trans (a b c : Job × Nat) (hab : rankLE a b = true)
    (hbc : rankLE b c = true) : rankLE a c = true := by
  simp only [rankLE, Bool.or_eq_true, Bool.and_eq_true, decide_eq_true_eq] at hab hbc ⊢
  rcases hab with h1 | ⟨h1e, h1s⟩ <;> rcases hbc with h2 | ⟨h2e, h2s⟩
  · exact Or.inl (by omega)
  · exact Or.inl (by omega)
  · exact Or.inl (by omega)
  · exact Or.inr ⟨h1e.trans h2e, charListLe_trans _ _ _ h1s h2s⟩

lemma insertRank_perm (x : Job × Nat) (l : List (Job × Nat)) :
    List.Perm (insertRank x l) (x :: l) := by
  induction l with
  | nil => exact List.Perm.refl _
  | cons y ys ih =>
    rw [insertRank]
    by_cases h : rankLE x y = true
    · rw [if_pos h]
    · rw [if_neg h]
      exact (ih.cons y).trans (List.Perm.swap x y ys)

lemma sortRank_perm (l : List (Job × Nat)) : List.Perm (sortRank l) l := by
  induction l with
  | nil => exact List.Perm.refl _
  | cons x xs ih => exact (insertRank_perm x (sortRank xs)).trans (ih.cons x)

lemma insertRank_pairwise (x : Job × Nat) (l : List (Job × Nat))
    (hl : List.Pairwise rankRel l) : List.Pairwise rankRel (insertRank x l) := by
  induction l with
  | nil => simp [insertRank, rankRel]
  | cons y ys ih =>
    rcases List.pairwise_cons.mp hl with ⟨hy, hys⟩
    rw [insertRank]
    by_cases h : rankLE x y = true
    · rw [if_pos h]
      refine List.pairwise_cons.mpr ⟨?_, hl⟩
      intro z hz
      rcases List.mem_cons.mp hz with rfl | hz'
      · exact h
      · exact rankLE_trans _ _ _ h (hy z hz')
    · rw [if_neg h]
      refine List.pairwise_cons.mpr ⟨?_, ih hys⟩
      intro z hz
      have hz2 := (insertRank_perm x ys).mem_iff.mp hz
      rcases List.mem_cons.mp hz2 with rfl | hz'
      · rcases rankLE_total y z with hx | hx
        · exact hx
        · exact absurd hx h
      · exact hy z hz'

lemma sortRank_pairwise (l : List (Job × Nat)) : List.Pairwise rankRel (sortRank l) := by
  induction l with
  | nil => exact List.Pairwise.nil
  | cons x xs ih => exact insertRank_pairwise x _ ih

/-- C6 counterexample: the claim computes the score over a title whose
non-alphanumeric characters are all replaced by spaces, but `_clean_title`
keeps whitespace characters unchanged: on the title "head\tof" (a tab
between the words) the code's score is 0 while the score over the
claimed normalization is 1 (the leadership term "head of" matches). -/
theorem scope_normalization_counterexample :
    scope_score (enrichJob jobTabTitle) = 0 ∧
    scope_score_spec jobTabTitle.title = 1 ∧ (0 : Nat) ≠ 1 := by decide

/-- C6 (amended): each job's scope score is the sum of the four
distinct-keyword-hit counts and the people-management flag, computed
over the code's normalized title (non-alphanumeric, non-whitespace
characters replaced by spaces, whitespace kept as-is, lower-cased); the
high-scope ranking holds exactly the scored jobs with strictly positive
score, sorted by descending score with ties broken by ascending title. -/
theorem scope_score_and_ranking (jobs : List Job) (j : Job)
    (h1 : j.strategy_score = 0) (h2 : j.execution_score = 0)
    (h3 : j.cross_functional_score = 0) (h4 : j.leadership_score = 0)
    (h5 : j.people_mgmt_flag = false) :
    scope_score (enrichJob j) =
      termScore strategyTerms (cleanTitle j.title) +
      termScore executionTerms (cleanTitle j.title) +
      termScore crossFuncTerms (cleanTitle j.title) +
      termScore leadershipTerms (cleanTitle j.title) +
      (if peopleMgmtTerms.any (fun term => pyIn term (cleanTitle j.title)) then 1
       else 0) ∧
    List.Perm (highScopeRanking jobs)
      ((jobs.map fun j0 => (j0, scope_score j0)).filter fun p => 0 < p.2) ∧
    (∀ p, p ∈ highScopeRanking jobs → 0 < p.2 ∧ p.2 = scope_score p.1) ∧
    List.Pairwise rankRel (highScopeRanking jobs) := by
  refine ⟨?_, sortRank_perm _, ?_, sortRank_pairwise _⟩
  · by_cases ht : cleanTitle j.title = ""
    · have he : enrichJob j = j := by rw [enrichJob]; simp [ht]
      rw [he, ht]
      simp [scope_score, h1, h2, h3, h4, h5]
      decide
    · rw [enrichJob]
      simp [ht, scope_score]
  · intro p hp
    have hp2 := (sortRank_perm _).mem_iff.mp hp
    rcases List.mem_filter.mp hp2 with ⟨hmem, hpos⟩
    rcases List.mem_map.mp hmem with ⟨j0, _, rfl⟩
    exact ⟨by simpa using hpos, rfl⟩

/-- C6 witness: "VP Sales" scores 1 (leadership term "vp"), and the
ranking of that one job is sorted. -/
theorem scope_score_and_ranking_witness :
    scope_score (enrichJob jobA) = 1 ∧
    List.Pairwise rankRel (highScopeRanking [jobA]) := by
  have h := scope_score_and_ranking [jobA] jobA rfl rfl rfl rfl rfl
  exact ⟨h.1.trans (by decide), h.2.2.2⟩

end RMB
